import Mathlib

/-!
# Verification of the site crawler (`main.go`)

A shallow embedding of the pure parts of `main.go` (`isValidLink`,
`extractDomain`, `extractSiteName`, the loop of `readLinksFromFile`, the start
of `scrapeWebsite`) and of the link callback registered in `scrapeWebsite`,
with theorems about them.

* Go strings are modelled as lists of characters (`GoString`), i.e. as the
  code points of a well-formed UTF-8 text; on such strings the byte-wise
  searches of Go's `strings` package find the same instances.
* The functions of Go's `strings` and `unicode` packages that the program calls
  are embedded by their documented behaviour and keep Go's names.
* `url.Parse` and the file system are parameters of the functions that use
  them.
* The link callback is a function on an explicit state: the map
  `visitedLinks`, the lines handed to `writer.WriteString` and the URLs handed
  to `c.Visit`.  A sequence of callbacks is the fold of that function, in the
  order in which the links are delivered.
-/

namespace Crawlee

/-- A Go `string`, as the list of its characters. -/
abbrev GoString := List Char

/-! ## The functions of package `strings` used by `main.go` -/

/-- Go `strings.HasPrefix(s, pre)`:
`len(s) >= len(pre) && s[:len(pre)] == pre`. -/
def HasPrefix (s pre : GoString) : Bool :=
  decide (pre.length ≤ s.length) && (s.take pre.length == pre)

/-- Go `strings.HasSuffix(s, suffix)`:
`len(s) >= len(suffix) && s[len(s)-len(suffix):] == suffix`. -/
def HasSuffix (s suffix : GoString) : Bool :=
  decide (suffix.length ≤ s.length) && (s.drop (s.length - suffix.length) == suffix)

/-- Go `strings.Index(s, substr)`: the index of the first instance of `substr`
in `s`; `none` stands for Go's `-1`. -/
def Index : GoString → GoString → Option Nat
  | [], substr => if substr = [] then some 0 else none
  | c :: s, substr =>
    if HasPrefix (c :: s) substr then some 0
    else (Index s substr).map (· + 1)

/-- Go `strings.Contains(s, substr)`: `Index(s, substr) >= 0`. -/
def Contains (s substr : GoString) : Bool :=
  (Index s substr).isSome

/-- Go `strings.TrimPrefix(s, pre)`: `s` without the leading `pre`, or `s`
itself when it does not start with `pre`. -/
def TrimPrefix (s pre : GoString) : GoString :=
  if HasPrefix s pre then s.drop pre.length else s

/-- The loop of Go `strings.Count(s, substr)` for a non-empty `substr`: the
number of non-overlapping instances.  The first argument bounds the number of
iterations; `len(s)` is enough, every iteration consuming at least one
character. -/
def countLoop (substr : GoString) : Nat → GoString → Nat
  | 0, _ => 0
  | fuel + 1, s =>
    match Index s substr with
    | none => 0
    | some i => countLoop substr fuel (s.drop (i + substr.length)) + 1

/-- Go `strings.Count(s, substr)`; for the empty `substr` it is the number of
characters of `s` plus one. -/
def Count (s substr : GoString) : Nat :=
  if substr = [] then s.length + 1 else countLoop substr s.length s

/-- The loop of Go `strings.genSplit` (with `sepSave = 0`): `n` is the number
of separators still to be cut at; the remainder of `s` is the last piece. -/
def genSplitLoop (sep : GoString) : Nat → GoString → List GoString
  | 0, s => [s]
  | n + 1, s =>
    match Index s sep with
    | none => [s]
    | some m => s.take m :: genSplitLoop sep n (s.drop (m + sep.length))

/-- Go `strings.Split(s, sep)`, i.e. `genSplit(s, sep, 0, -1)`: for the empty
separator `s` is exploded into its characters, otherwise it is cut at the
`Count(s, sep)` instances of `sep`. -/
def Split (s sep : GoString) : List GoString :=
  if sep = [] then s.map (fun c => [c])
  else genSplitLoop sep (Count s sep) s

/-- Go `unicode.IsSpace`: the Latin-1 spaces `\t \n \v \f \r`, space, U+0085,
U+00A0, and above Latin-1 the characters of the `White_Space` table. -/
def IsSpace (r : Char) : Bool :=
  let n := r.toNat
  if n ≤ 0xFF then
    n == 0x09 || n == 0x0A || n == 0x0B || n == 0x0C || n == 0x0D || n == 0x20 ||
      n == 0x85 || n == 0xA0
  else
    n == 0x1680 || (0x2000 ≤ n && n ≤ 0x200A) || n == 0x2028 || n == 0x2029 ||
      n == 0x202F || n == 0x205F || n == 0x3000

/-- Go `strings.TrimSpace(s)`: `s` with all leading and trailing white space
(as defined by `unicode.IsSpace`) removed. -/
def TrimSpace (s : GoString) : GoString :=
  ((s.dropWhile IsSpace).reverse.dropWhile IsSpace).reverse

/-! ## Site identity: `extractDomain`, `extractSiteName` -/

/-- The one field of Go's `url.URL` that the program reads. -/
structure URL where
  Host : GoString
  deriving DecidableEq, Repr

/-- The errors the program produces or passes on. -/
inductive CrawlError where
  /-- the error returned by `url.Parse` -/
  | parse (detail : String)
  /-- `could not extract site name from URL: %s` -/
  | noSiteName (fullURL : GoString)
  /-- `error creating directory: %v` -/
  | createDirectory
  /-- `error creating file: %v` -/
  | createFile
  /-- `error opening file: %v` -/
  | openFile
  /-- `error reading file: %v` -/
  | readFile
  deriving DecidableEq, Repr

/-- The function `extractDomain` of `main.go`.  The library function
`url.Parse` is the parameter `urlParse`. -/
def extractDomain (urlParse : GoString → Except CrawlError URL) (fullURL : GoString) :
    Except CrawlError GoString :=
  match urlParse fullURL with
  | .error err => .error err
  | .ok u => .ok u.Host

/-- The function `extractSiteName` of `main.go`.  The library function
`url.Parse` is the parameter `urlParse`.  `parts[0]` is returned under the
guard `len(parts) > 0`; the error after it is for the remaining case. -/
def extractSiteName (urlParse : GoString → Except CrawlError URL) (fullURL : GoString) :
    Except CrawlError GoString :=
  match urlParse fullURL with
  | .error err => .error err
  | .ok u =>
    let domain := u.Host
    let domain := TrimPrefix domain "www.".toList
    let parts := Split domain ".".toList
    match parts with
    | part0 :: _ => .ok part0
    | [] => .error (.noSiteName fullURL)

/-! ## `isValidLink` -/

/-- The function `isValidLink` of `main.go`, conjunct by conjunct. -/
def isValidLink (url siteName : GoString) : Bool :=
  Contains url "http".toList &&
    Contains url siteName &&
    !Contains url "mailto:".toList &&
    !Contains url "tel:".toList &&
    !Contains url "javascript:".toList &&
    !Contains url "#".toList &&
    !HasSuffix url ".pdf".toList &&
    !HasSuffix url ".jpg".toList &&
    !HasSuffix url ".png".toList &&
    !HasSuffix url ".gif".toList &&
    !HasSuffix url ".doc".toList &&
    !HasSuffix url ".docx".toList

/-! ## `scrapeWebsite`: start-up and the link callback -/

/-- The variable `rawResultsFolderPath` of `main.go`. -/
def rawResultsFolderPath : GoString := "./raw-results".toList

/-- What the file system answers to `initFile`: whether `os.MkdirAll`
succeeds on a folder and whether `os.Create` succeeds on a file of a folder. -/
structure FileSystem where
  mkdirAll : GoString → Bool
  create : GoString → GoString → Bool

/-- The function `initFile` of `main.go`.  The result is the file created, as
the two arguments of `filepath.Join`: the folder and the file name
`name + ".txt"`. -/
def initFile (fs : FileSystem) (name folderPath : GoString) :
    Except CrawlError (GoString × GoString) :=
  if fs.mkdirAll folderPath = false then .error .createDirectory
  else
    let fullPath := (rawResultsFolderPath, name ++ ".txt".toList)
    if fs.create fullPath.1 fullPath.2 = false then .error .createFile
    else .ok fullPath

/-- The start of `scrapeWebsite` (up to the creation of the output file):
the site name is derived from the seed, then the output file is created; an
error of either step ends the crawl of this seed.  The result is the site name
and the file created. -/
def scrapeWebsiteInit (urlParse : GoString → Except CrawlError URL) (fs : FileSystem)
    (link : GoString) : Except CrawlError (GoString × (GoString × GoString)) :=
  match extractSiteName urlParse link with
  | .error err => .error err
  | .ok siteName =>
    match initFile fs siteName rawResultsFolderPath with
    | .error err => .error err
    | .ok file => .ok (siteName, file)

/-- The Go map `visitedLinks : map[string]bool`, as the list of its entries,
the latest first. -/
abbrev VisitedLinks := List (GoString × Bool)

/-- The Go expression `visitedLinks[key]`: the value stored under `key`, and
`false` (the zero value) when there is none. -/
def VisitedLinks.get (m : VisitedLinks) (key : GoString) : Bool :=
  match m with
  | [] => false
  | (k, v) :: rest => if k = key then v else VisitedLinks.get rest key

/-- The Go statement `visitedLinks[key] = value`. -/
def VisitedLinks.set (m : VisitedLinks) (key : GoString) (value : Bool) : VisitedLinks :=
  (key, value) :: m.filter (fun kv => kv.1 ≠ key)

/-- The state the link callback of `scrapeWebsite` works on: the map
`visitedLinks`, the lines written to `writer` so far, and the URLs passed to
`c.Visit` so far (both in the order of the calls). -/
structure CrawlState where
  visitedLinks : VisitedLinks
  written : List GoString
  visitCalls : List GoString
  deriving DecidableEq, Repr

/-- The state at the registration of the callback: `make(map[string]bool)`,
nothing written, no call of `c.Visit` from the callback. -/
def CrawlState.init : CrawlState :=
  { visitedLinks := [], written := [], visitCalls := [] }

/-- The check-and-insert of the callback,
`if !visitedLinks[absoluteURL] { visitedLinks[absoluteURL] = true; ... }`:
the result says whether the branch was taken (the URL is new) and gives the
map after it. -/
def checkAndInsert (visitedLinks : VisitedLinks) (absoluteURL : GoString) :
    Bool × VisitedLinks :=
  if !visitedLinks.get absoluteURL then (true, visitedLinks.set absoluteURL true)
  else (false, visitedLinks)

/-- The body of the callback `c.OnHTML("a[href]", ...)` of `scrapeWebsite`, from
the absolute URL on.  The line written is the URL; its `"\n"` is left out. -/
def onHTML (siteName : GoString) (st : CrawlState) (absoluteURL : GoString) : CrawlState :=
  if isValidLink absoluteURL siteName then
    let r := checkAndInsert st.visitedLinks absoluteURL
    let st :=
      if r.1 then
        { st with visitedLinks := r.2, written := st.written ++ [absoluteURL] }
      else st
    { st with visitCalls := st.visitCalls ++ [absoluteURL] }
  else st

/-- The callback run on a sequence of absolute links, in the order in which
they are delivered to it. -/
def runCallbacks (siteName : GoString) (st : CrawlState) (links : List GoString) :
    CrawlState :=
  links.foldl (onHTML siteName) st

/-- The check-and-insert run on a sequence of URLs: the answers, in the order
of the calls, and the final map. -/
def runChecks : VisitedLinks → List GoString → List Bool × VisitedLinks
  | m, [] => ([], m)
  | m, u :: rest =>
    let r := checkAndInsert m u
    let rs := runChecks r.2 rest
    (r.1 :: rs.1, rs.2)

/-! ## `readLinksFromFile` -/

/-- What opening and scanning the seed file gives: `os.Open` fails, or the
scanner delivers `lines` (the values of `scanner.Text()`, in order) and ends
with the error `scanErr` (`none` for `nil`). -/
inductive SeedFile where
  | openFails
  | opened (lines : List GoString) (scanErr : Option String)

/-- The loop body of `readLinksFromFile`: the line is trimmed and appended when
it is not empty. -/
def readLinksStep (links : List GoString) (text : GoString) : List GoString :=
  let line := TrimSpace text
  if line ≠ [] then links ++ [line] else links

/-- The function `readLinksFromFile` of `main.go`. -/
def readLinksFromFile (file : SeedFile) : Except CrawlError (List GoString) :=
  match file with
  | .openFails => .error .openFile
  | .opened lines scanErr =>
    let links := lines.foldl readLinksStep []
    match scanErr with
    | some _ => .error .readFile
    | none => .ok links

/-! ## The specification's notions -/

/-- A list without its repetitions: every element is kept at its first
occurrence. -/
def firstOccurrences : List GoString → List GoString
  | [] => []
  | x :: xs => x :: (firstOccurrences xs).filter (fun y => y ≠ x)

/-- The first label of a host: the part before its first `.`, the whole host
when it has none. -/
def firstLabel (host : GoString) : GoString :=
  host.takeWhile (fun c => c ≠ '.')

/-- The non-HTML asset extensions of rule 4. -/
def assetExtensions : List GoString :=
  [".pdf".toList, ".jpg".toList, ".png".toList, ".gif".toList, ".doc".toList, ".docx".toList]

/-- The markers of non-navigational links of rule 3. -/
def nonNavigational : List GoString :=
  ["mailto:".toList, "tel:".toList, "javascript:".toList, "#".toList]

/-! ## Lemmas on the string functions -/

theorem HasPrefix_iff (s pre : GoString) : HasPrefix s pre = true ↔ pre <+: s := by
  unfold HasPrefix
  rw [List.prefix_iff_eq_take]
  simp only [Bool.and_eq_true, decide_eq_true_eq, beq_iff_eq]
  constructor
  · rintro ⟨_, h⟩
    exact h.symm
  · intro h
    refine ⟨?_, h.symm⟩
    have := congrArg List.length h
    simp only [List.length_take] at this
    omega

theorem HasSuffix_iff (s suffix : GoString) : HasSuffix s suffix = true ↔ suffix <:+ s := by
  unfold HasSuffix
  rw [List.suffix_iff_eq_drop]
  simp only [Bool.and_eq_true, decide_eq_true_eq, beq_iff_eq]
  constructor
  · rintro ⟨_, h⟩
    exact h.symm
  · intro h
    refine ⟨?_, h.symm⟩
    have := congrArg List.length h
    simp only [List.length_drop] at this
    omega

theorem Index_isSome_iff (s substr : GoString) :
    (Index s substr).isSome = true ↔ substr <:+: s := by
  induction s with
  | nil =>
    unfold Index
    by_cases h : substr = []
    · simp [h]
    · simp [h]
  | cons c s ih =>
    unfold Index
    rw [List.infix_cons_iff, ← HasPrefix_iff, ← ih]
    by_cases h : HasPrefix (c :: s) substr = true
    · simp [h]
    · simp [h]

theorem Contains_iff (s substr : GoString) : Contains s substr = true ↔ substr <:+: s :=
  Index_isSome_iff s substr

theorem Contains_eq_false_iff (s substr : GoString) :
    Contains s substr = false ↔ ¬ substr <:+: s := by
  rw [← Contains_iff]
  simp

theorem HasSuffix_eq_false_iff (s suffix : GoString) :
    HasSuffix s suffix = false ↔ ¬ suffix <:+ s := by
  rw [← HasSuffix_iff]
  simp

/-! ## The link classifier -/

theorem isValidLink_eq_true_iff (u s : GoString) :
    isValidLink u s = true ↔
      ("http".toList <:+: u ∧ s <:+: u ∧
        (¬ "mailto:".toList <:+: u ∧ ¬ "tel:".toList <:+: u ∧
          ¬ "javascript:".toList <:+: u ∧ ¬ "#".toList <:+: u) ∧
        (¬ ".pdf".toList <:+ u ∧ ¬ ".jpg".toList <:+ u ∧ ¬ ".png".toList <:+ u ∧
          ¬ ".gif".toList <:+ u ∧ ¬ ".doc".toList <:+ u ∧ ¬ ".docx".toList <:+ u)) := by
  unfold isValidLink
  simp only [Bool.and_eq_true, Bool.not_eq_true', Contains_iff, Contains_eq_false_iff,
    HasSuffix_eq_false_iff]
  tauto

/-- Claim C1: `isValidLink u s` is true exactly when the four rules hold
together: `u` contains `http`, `u` contains `s`, `u` contains none of
`mailto:`, `tel:`, `javascript:`, `#`, and `u` does not end in any of `.pdf`,
`.jpg`, `.png`, `.gif`, `.doc`, `.docx`; and it answers true or false on every
pair of strings. -/
theorem isValidLink_iff_rules (u s : GoString) :
    (isValidLink u s = true ↔
      ("http".toList <:+: u ∧ s <:+: u ∧
        (¬ "mailto:".toList <:+: u ∧ ¬ "tel:".toList <:+: u ∧
          ¬ "javascript:".toList <:+: u ∧ ¬ "#".toList <:+: u) ∧
        (¬ ".pdf".toList <:+ u ∧ ¬ ".jpg".toList <:+ u ∧ ¬ ".png".toList <:+ u ∧
          ¬ ".gif".toList <:+ u ∧ ¬ ".doc".toList <:+ u ∧ ¬ ".docx".toList <:+ u))) ∧
    (isValidLink u s = true ∨ isValidLink u s = false) :=
  ⟨isValidLink_eq_true_iff u s, by cases isValidLink u s <;> simp⟩

/-- Claim C7: a URL that ends in `.pdf`, `.jpg`, `.png`, `.gif`, `.doc` or
`.docx` is rejected by `isValidLink`, whatever the site name. -/
theorem isValidLink_asset_extension (u s : GoString)
    (h : ".pdf".toList <:+ u ∨ ".jpg".toList <:+ u ∨ ".png".toList <:+ u ∨
      ".gif".toList <:+ u ∨ ".doc".toList <:+ u ∨ ".docx".toList <:+ u) :
    isValidLink u s = false := by
  rw [← Bool.not_eq_true, isValidLink_eq_true_iff]
  tauto

/-- Witness of C7: `http://example.com/img.png` ends in `.png` and is rejected
for the site name `example`, which it contains. -/
theorem isValidLink_asset_extension_witness :
    ".png".toList <:+ "http://example.com/img.png".toList ∧
      "example".toList <:+: "http://example.com/img.png".toList ∧
      isValidLink "http://example.com/img.png".toList "example".toList = false :=
  ⟨by decide, by decide,
    isValidLink_asset_extension "http://example.com/img.png".toList "example".toList
      (Or.inr (Or.inr (Or.inl (by decide))))⟩

/-- Claim C8: a URL that contains `#`, `mailto:`, `tel:` or `javascript:`
anywhere is rejected by `isValidLink`, whatever the site name. -/
theorem isValidLink_non_navigational (u s : GoString)
    (h : "#".toList <:+: u ∨ "mailto:".toList <:+: u ∨ "tel:".toList <:+: u ∨
      "javascript:".toList <:+: u) :
    isValidLink u s = false := by
  rw [← Bool.not_eq_true, isValidLink_eq_true_iff]
  tauto

/-- Witness of C8: `http://example.com/a#top` contains `#` and is rejected for
the site name `example`, which it contains. -/
theorem isValidLink_non_navigational_witness :
    "#".toList <:+: "http://example.com/a#top".toList ∧
      "example".toList <:+: "http://example.com/a#top".toList ∧
      isValidLink "http://example.com/a#top".toList "example".toList = false :=
  ⟨by decide, by decide,
    isValidLink_non_navigational "http://example.com/a#top".toList "example".toList
      (Or.inl (by decide))⟩

/-! ## Site identity -/

theorem Index_nil_of_ne_nil (substr : GoString) (h : substr ≠ []) : Index [] substr = none := by
  unfold Index
  simp [h]

/-- The first piece of `Split s sep`, for a non-empty separator: `s` up to the
first instance of `sep`, or the whole of `s`. -/
theorem Split_cons (s sep : GoString) (h : sep ≠ []) :
    ∃ rest, Split s sep =
      (match Index s sep with
        | none => s
        | some m => s.take m) :: rest := by
  unfold Split Count
  simp only [h, if_false]
  cases s with
  | nil =>
    refine ⟨[], ?_⟩
    simp [Index_nil_of_ne_nil sep h, countLoop, genSplitLoop]
  | cons c t =>
    cases hi : Index (c :: t) sep with
    | none =>
      refine ⟨[], ?_⟩
      simp [countLoop, genSplitLoop, hi]
    | some m =>
      simp only [List.length_cons, countLoop, hi, genSplitLoop]
      exact ⟨_, rfl⟩

theorem HasPrefix_singleton (c d : Char) (t : GoString) :
    HasPrefix (c :: t) [d] = true ↔ c = d := by
  unfold HasPrefix
  simp

/-- Up to the first instance of `.` is the first label. -/
theorem Index_dot (s : GoString) :
    (match Index s ['.'] with
      | none => s
      | some m => s.take m) = firstLabel s := by
  unfold firstLabel
  induction s with
  | nil => simp [Index]
  | cons c t ih =>
    unfold Index
    rw [List.takeWhile_cons]
    by_cases hc : c = '.'
    · have : HasPrefix (c :: t) ['.'] = true := (HasPrefix_singleton c '.' t).2 hc
      simp only [this, if_true, List.take_zero]
      simp [hc]
    · have : HasPrefix (c :: t) ['.'] = false := by
        rw [← Bool.not_eq_true, HasPrefix_singleton]
        exact hc
      have hd : decide (c ≠ '.') = true := by simpa using hc
      simp only [this, Bool.false_eq_true, if_false, hd, if_true]
      cases hi : Index t ['.'] with
      | none =>
        rw [hi] at ih
        simp only at ih
        simp only [Option.map_none']
        rw [← ih]
      | some m =>
        rw [hi] at ih
        simp only at ih
        simp only [Option.map_some', List.take_succ_cons]
        rw [← ih]

theorem extractSiteName_ok (urlParse : GoString → Except CrawlError URL) (fullURL : GoString)
    (u : URL) (hparse : urlParse fullURL = .ok u) :
    extractSiteName urlParse fullURL = .ok (firstLabel (TrimPrefix u.Host "www.".toList)) := by
  unfold extractSiteName
  rw [hparse]
  obtain ⟨rest, hrest⟩ := Split_cons (TrimPrefix u.Host "www.".toList) ".".toList (by decide)
  have hdot := Index_dot (TrimPrefix u.Host "www.".toList)
  have e : ".".toList = ['.'] := rfl
  rw [e] at hrest
  simp only [e, hrest, hdot]

theorem TrimPrefix_append (pre r : GoString) : TrimPrefix (pre ++ r) pre = r := by
  unfold TrimPrefix
  have : HasPrefix (pre ++ r) pre = true := (HasPrefix_iff _ _).2 (List.prefix_append pre r)
  simp [this]

theorem TrimPrefix_of_not_prefix (s pre : GoString) (h : ¬ pre <+: s) : TrimPrefix s pre = s := by
  unfold TrimPrefix
  have : HasPrefix s pre = false := by
    rw [← Bool.not_eq_true, HasPrefix_iff]
    exact h
  simp [this]

/-- Claim C6, as amended: for a seed that parses as a URL with host `h`, the
derived domain is `h`, and the derived site name is the first label of `h`
once one leading `www.` has been removed: the first label of `h` when `h` does
not begin with `www.`, and the first label of `r` when `h` is `www.` followed
by `r`. -/
theorem extractSiteName_first_label (urlParse : GoString → Except CrawlError URL)
    (fullURL : GoString) (u : URL) (hparse : urlParse fullURL = .ok u) :
    extractDomain urlParse fullURL = .ok u.Host ∧
    (¬ "www.".toList <+: u.Host →
      extractSiteName urlParse fullURL = .ok (firstLabel u.Host)) ∧
    (∀ r, u.Host = "www.".toList ++ r →
      extractSiteName urlParse fullURL = .ok (firstLabel r)) := by
  refine ⟨?_, ?_, ?_⟩
  · unfold extractDomain
    rw [hparse]
  · intro h
    rw [extractSiteName_ok urlParse fullURL u hparse, TrimPrefix_of_not_prefix _ _ h]
  · intro r hr
    rw [extractSiteName_ok urlParse fullURL u hparse, hr, TrimPrefix_append]

/-- Witness of C6 as amended: the hosts `example.com` and `www.example.com`
both give the site name `example`. -/
theorem extractSiteName_first_label_witness :
    extractDomain (fun _ => .ok ⟨"example.com".toList⟩) "http://example.com".toList
        = .ok "example.com".toList ∧
      extractSiteName (fun _ => .ok ⟨"example.com".toList⟩) "http://example.com".toList
        = .ok "example".toList ∧
      extractSiteName (fun _ => .ok ⟨"www.example.com".toList⟩) "http://www.example.com".toList
        = .ok "example".toList :=
  ⟨(extractSiteName_first_label (fun _ => .ok ⟨"example.com".toList⟩)
      "http://example.com".toList ⟨"example.com".toList⟩ rfl).1,
    (extractSiteName_first_label (fun _ => .ok ⟨"example.com".toList⟩)
      "http://example.com".toList ⟨"example.com".toList⟩ rfl).2.1 (by decide),
    (extractSiteName_first_label (fun _ => .ok ⟨"www.example.com".toList⟩)
      "http://www.example.com".toList ⟨"www.example.com".toList⟩ rfl).2.2
      "example.com".toList rfl⟩

/-- Counterexample to C6 as stated: for the host `www.example.com` the derived
site name is `example`, while the first label of the host is `www`. -/
theorem extractSiteName_www_counterexample :
    ¬ (∀ (urlParse : GoString → Except CrawlError URL) (fullURL : GoString) (u : URL),
        urlParse fullURL = .ok u →
        extractSiteName urlParse fullURL = .ok (firstLabel u.Host) ∧
          extractDomain urlParse fullURL = .ok u.Host) := by
  intro h
  have h1 := (h (fun _ => .ok ⟨"www.example.com".toList⟩) "http://www.example.com".toList
    ⟨"www.example.com".toList⟩ rfl).1
  have h2 : extractSiteName (fun _ => .ok ⟨"www.example.com".toList⟩)
      "http://www.example.com".toList = .ok "example".toList := rfl
  rw [h2] at h1
  have h3 : "example".toList = firstLabel "www.example.com".toList := by
    injection h1
  revert h3
  decide

/-- Claim C5 (the code at the failing input): when the seed parses as a URL
with an empty host, `extractSiteName` returns the empty site name without an
error, and `scrapeWebsite` goes on to create the output file `.txt` in the
results folder. -/
theorem extractSiteName_empty_host (urlParse : GoString → Except CrawlError URL)
    (fs : FileSystem) (fullURL : GoString) (u : URL)
    (hparse : urlParse fullURL = .ok u) (hhost : u.Host = [])
    (hdir : fs.mkdirAll rawResultsFolderPath = true)
    (hfile : fs.create rawResultsFolderPath ".txt".toList = true) :
    extractSiteName urlParse fullURL = .ok [] ∧
      scrapeWebsiteInit urlParse fs fullURL
        = .ok ([], (rawResultsFolderPath, ".txt".toList)) := by
  have h1 : extractSiteName urlParse fullURL = .ok [] := by
    rw [extractSiteName_ok urlParse fullURL u hparse, hhost]
    rfl
  refine ⟨h1, ?_⟩
  unfold scrapeWebsiteInit initFile
  rw [h1]
  simp only [hdir, Bool.true_eq_false, if_false, List.nil_append, hfile]

/-- Witness of C5: the seed `not a url`, which `url.Parse` accepts with an
empty host. -/
theorem extractSiteName_empty_host_witness :
    extractSiteName (fun _ => .ok ⟨[]⟩) "not a url".toList = .ok [] ∧
      scrapeWebsiteInit (fun _ => .ok ⟨[]⟩) ⟨fun _ => true, fun _ _ => true⟩
        "not a url".toList = .ok ([], (rawResultsFolderPath, ".txt".toList)) :=
  extractSiteName_empty_host (fun _ => .ok ⟨[]⟩) ⟨fun _ => true, fun _ _ => true⟩
    "not a url".toList ⟨[]⟩ rfl rfl rfl rfl

/-- The error `could not extract site name` is never produced by
`extractSiteName`: an error it returns is the one of `url.Parse`. -/
theorem extractSiteName_error (urlParse : GoString → Except CrawlError URL)
    (fullURL : GoString) (err : CrawlError)
    (h : extractSiteName urlParse fullURL = .error err) : urlParse fullURL = .error err := by
  cases hp : urlParse fullURL with
  | error e =>
    unfold extractSiteName at h
    rw [hp] at h
    simpa using h
  | ok u =>
    rw [extractSiteName_ok urlParse fullURL u hp] at h
    cases h

/-! ## The visited set -/

theorem get_filter_ne (m : VisitedLinks) (key k : GoString) :
    VisitedLinks.get (m.filter (fun kv => !decide (kv.1 = key))) k
      = if k = key then false else VisitedLinks.get m k := by
  induction m with
  | nil => simp [VisitedLinks.get]
  | cons kv rest ih =>
    obtain ⟨a, b⟩ := kv
    by_cases ha : a = key
    · subst ha
      by_cases hk : k = a
      · subst hk
        simpa [List.filter_cons] using ih
      · have hak : ¬ a = k := fun h => hk h.symm
        simp [List.filter_cons, ih, hk, VisitedLinks.get, hak]
    · by_cases hk : a = k
      · subst hk
        simp [List.filter_cons, ha, VisitedLinks.get]
      · simp [List.filter_cons, ha, VisitedLinks.get, hk, ih]

theorem get_set (m : VisitedLinks) (key k : GoString) (v : Bool) :
    (m.set key v).get k = if k = key then v else m.get k := by
  unfold VisitedLinks.set
  simp only [ne_eq, decide_not]
  by_cases hk : k = key
  · subst hk
    simp [VisitedLinks.get]
  · have hkk : ¬ key = k := fun h => hk h.symm
    simp [VisitedLinks.get, hkk, hk, get_filter_ne]

/-- After the check-and-insert of `u`, the recorded URLs are those recorded
before and `u`. -/
theorem checkAndInsert_get (m : VisitedLinks) (u k : GoString) :
    (checkAndInsert m u).2.get k = true ↔ (m.get k = true ∨ k = u) := by
  unfold checkAndInsert
  by_cases hm : m.get u = true
  · simp only [hm, Bool.not_true, Bool.false_eq_true, if_false]
    constructor
    · exact Or.inl
    · rintro (h | h)
      · exact h
      · rw [h]; exact hm
  · simp only [hm, Bool.not_false, if_true, get_set]
    by_cases hk : k = u
    · simp [hk]
    · simp [hk]

theorem checkAndInsert_fst (m : VisitedLinks) (u : GoString) :
    (checkAndInsert m u).1 = !m.get u := by
  unfold checkAndInsert
  cases m.get u <;> simp

theorem runChecks_append (m : VisitedLinks) (a b : List GoString) :
    runChecks m (a ++ b)
      = ((runChecks m a).1 ++ (runChecks (runChecks m a).2 b).1,
          (runChecks (runChecks m a).2 b).2) := by
  induction a generalizing m with
  | nil => simp [runChecks]
  | cons x a ih => simp [runChecks, ih]

theorem runChecks_length (m : VisitedLinks) (calls : List GoString) :
    (runChecks m calls).1.length = calls.length := by
  induction calls generalizing m with
  | nil => simp [runChecks]
  | cons x a ih => simp [runChecks, ih]

theorem runChecks_get (m : VisitedLinks) (calls : List GoString) (k : GoString) :
    (runChecks m calls).2.get k = true ↔ (m.get k = true ∨ k ∈ calls) := by
  induction calls generalizing m with
  | nil => simp [runChecks]
  | cons x a ih =>
    simp only [runChecks, ih, checkAndInsert_get, List.mem_cons]
    tauto

theorem runChecks_count (m : VisitedLinks) (calls : List GoString) (u : GoString) :
    (calls.zip (runChecks m calls).1).count (u, true)
      = if m.get u = true then 0 else if u ∈ calls then 1 else 0 := by
  induction calls generalizing m with
  | nil => simp [runChecks]
  | cons x a ih =>
    simp only [runChecks, List.zip_cons_cons, List.count_cons, ih, checkAndInsert_fst,
      List.mem_cons]
    have hg := checkAndInsert_get m x u
    by_cases hu : m.get u = true
    · have h2 : (checkAndInsert m x).2.get u = true := hg.2 (Or.inl hu)
      have hx : ¬ ((x, !m.get x) == (u, true)) = true := by
        intro h
        have h' := eq_of_beq h
        simp only [Prod.mk.injEq] at h'
        rw [h'.1, hu] at h'
        simp at h'
      simp [h2, hu, hx]
    · by_cases hxu : u = x
      · subst hxu
        have h2 : (checkAndInsert m u).2.get u = true := hg.2 (Or.inr rfl)
        have hu' : m.get u = false := by simpa using hu
        simp [h2, hu']
      · have h2 : ¬ (checkAndInsert m x).2.get u = true := by
          rw [hg]
          tauto
        have hx : ¬ ((x, !m.get x) == (u, true)) = true := by
          intro h
          have h' := eq_of_beq h
          simp only [Prod.mk.injEq] at h'
          exact hxu h'.1.symm
        simp [h2, hu, hx, hxu]

/-- Claim C3: in a sequence of check-and-insert calls on a visited set that
starts empty, the call with `u` that comes after the calls `pre` reports new
exactly when `u` does not occur in `pre`; among all the calls with `u` exactly
one reports new; a call keeps every URL recorded before it and records its
own; and the URLs recorded at the end are those of the calls. -/
theorem checkAndInsert_first_sight (pre post : List GoString) (u : GoString) :
    (runChecks [] (pre ++ u :: post)).1.length = (pre ++ u :: post).length ∧
    (runChecks [] (pre ++ u :: post)).1[pre.length]? = some (decide (u ∉ pre)) ∧
    ((pre ++ u :: post).zip (runChecks [] (pre ++ u :: post)).1).count (u, true) = 1 ∧
    (∀ k, (runChecks [] pre).2.get k = true → (runChecks [] (pre ++ [u])).2.get k = true) ∧
    (runChecks [] (pre ++ [u])).2.get u = true ∧
    (∀ k, (runChecks [] (pre ++ u :: post)).2.get k = true ↔ k ∈ pre ++ u :: post) := by
  refine ⟨runChecks_length _ _, ?_, ?_, ?_, ?_, ?_⟩
  · rw [runChecks_append]
    have hl := runChecks_length [] pre
    simp only
    rw [List.getElem?_append_right (by omega), hl, Nat.sub_self]
    simp only [runChecks, List.getElem?_cons_zero, checkAndInsert_fst, Option.some.injEq]
    have hg := runChecks_get [] pre u
    simp only [VisitedLinks.get, Bool.false_eq_true, false_or] at hg
    by_cases hu : u ∈ pre
    · simp [hu, hg.2 hu]
    · have : (runChecks [] pre).2.get u = false := by
        rw [← Bool.not_eq_true, hg]
        exact hu
      simp [hu, this]
  · rw [runChecks_count]
    simp [VisitedLinks.get]
  · intro k hk
    rw [runChecks_get] at hk ⊢
    simp only [VisitedLinks.get, Bool.false_eq_true, false_or] at hk ⊢
    exact List.mem_append_left _ hk
  · rw [runChecks_get]
    simp
  · intro k
    rw [runChecks_get]
    simp [VisitedLinks.get]

/-- Witness of C3: in the calls `a`, `b`, `a`, `a` the third call, with `a`,
reports seen, exactly one call with `a` reports new, and `b`, recorded by the
second call, is still recorded after the third. -/
theorem checkAndInsert_first_sight_witness :
    (runChecks [] (["a".toList, "b".toList] ++ "a".toList :: ["a".toList])).1[2]? = some false ∧
    ((["a".toList, "b".toList] ++ "a".toList :: ["a".toList]).zip
      (runChecks [] (["a".toList, "b".toList] ++ "a".toList :: ["a".toList])).1).count
        ("a".toList, true) = 1 ∧
    (runChecks [] (["a".toList, "b".toList] ++ ["a".toList])).2.get "b".toList = true :=
  ⟨(checkAndInsert_first_sight ["a".toList, "b".toList] ["a".toList] "a".toList).2.1.trans
      (congrArg some (by decide)),
    (checkAndInsert_first_sight ["a".toList, "b".toList] ["a".toList] "a".toList).2.2.1,
    (checkAndInsert_first_sight ["a".toList, "b".toList] ["a".toList] "a".toList).2.2.2.1
      "b".toList (by decide)⟩

/-! ## The link callback -/

theorem mem_firstOccurrences (l : List GoString) (y : GoString) :
    y ∈ firstOccurrences l ↔ y ∈ l := by
  induction l with
  | nil => simp [firstOccurrences]
  | cons x xs ih =>
    simp only [firstOccurrences, List.mem_cons, List.mem_filter, ih, ne_eq, decide_not,
      Bool.not_eq_true', decide_eq_false_iff_not]
    tauto

theorem firstOccurrences_nodup (l : List GoString) : (firstOccurrences l).Nodup := by
  induction l with
  | nil => simp [firstOccurrences]
  | cons x xs ih =>
    simp only [firstOccurrences, List.nodup_cons, List.mem_filter, ne_eq, decide_not,
      Bool.not_eq_true', decide_eq_false_iff_not, not_and, not_not]
    exact ⟨fun _ => trivial, ih.filter _⟩

theorem firstOccurrences_append_singleton (l : List GoString) (x : GoString) :
    firstOccurrences (l ++ [x])
      = if x ∈ l then firstOccurrences l else firstOccurrences l ++ [x] := by
  induction l with
  | nil => simp [firstOccurrences]
  | cons a l ih =>
    rw [List.cons_append]
    show a :: (firstOccurrences (l ++ [x])).filter (fun y => y ≠ a) = _
    rw [ih]
    simp only [firstOccurrences, List.mem_cons]
    by_cases hl : x ∈ l
    · simp [hl]
    · by_cases ha : x = a
      · subst ha
        simp [hl, List.filter_append]
      · simp [hl, ha, List.filter_append]

theorem firstOccurrences_eq_self_iff (l : List GoString) :
    firstOccurrences l = l ↔ l.Nodup := by
  constructor
  · intro h
    rw [← h]
    exact firstOccurrences_nodup l
  · intro h
    induction l with
    | nil => rfl
    | cons x xs ih =>
      rw [List.nodup_cons] at h
      simp only [firstOccurrences, ih h.2, List.cons.injEq, true_and, List.filter_eq_self,
        ne_eq, decide_not, Bool.not_eq_true', decide_eq_false_iff_not]
      intro a ha hax
      exact h.1 (hax ▸ ha)

theorem runCallbacks_append_singleton (siteName : GoString) (st : CrawlState)
    (links : List GoString) (u : GoString) :
    runCallbacks siteName st (links ++ [u]) = onHTML siteName (runCallbacks siteName st links) u := by
  simp [runCallbacks, List.foldl_append]

/-- The state of the callback after a sequence of links: the recorded URLs
are the accepted links, the lines written are their first occurrences, and
`c.Visit` was called on every one of them. -/
theorem runCallbacks_invariant (siteName : GoString) (links : List GoString) :
    (∀ k, (runCallbacks siteName CrawlState.init links).visitedLinks.get k = true ↔
      k ∈ links.filter (fun u => isValidLink u siteName)) ∧
    (runCallbacks siteName CrawlState.init links).written
      = firstOccurrences (links.filter (fun u => isValidLink u siteName)) ∧
    (runCallbacks siteName CrawlState.init links).visitCalls
      = links.filter (fun u => isValidLink u siteName) := by
  induction links using List.reverseRecOn with
  | nil => simp [runCallbacks, CrawlState.init, VisitedLinks.get, firstOccurrences]
  | append_singleton l u ih =>
    obtain ⟨ih1, ih2, ih3⟩ := ih
    rw [runCallbacks_append_singleton, List.filter_append]
    unfold onHTML
    by_cases hv : isValidLink u siteName = true
    · simp only [hv, if_true, List.filter_cons, List.filter_nil, checkAndInsert_fst,
        firstOccurrences_append_singleton]
      by_cases hg : (runCallbacks siteName CrawlState.init l).visitedLinks.get u = true
      · have hmem := (ih1 u).1 hg
        simp only [hg, Bool.not_true, Bool.false_eq_true, if_false, hmem, if_true]
        refine ⟨?_, ih2, by rw [ih3]⟩
        intro k
        rw [ih1 k, List.mem_append, List.mem_singleton]
        constructor
        · exact Or.inl
        · rintro (h | h)
          · exact h
          · rw [h]; exact hmem
      · have hmem : ¬ u ∈ l.filter (fun u => isValidLink u siteName) := fun h => hg ((ih1 u).2 h)
        have hg' : (runCallbacks siteName CrawlState.init l).visitedLinks.get u = false := by
          simpa using hg
        simp only [hg', Bool.not_false, if_true, hmem, if_false]
        refine ⟨?_, by rw [ih2], by rw [ih3]⟩
        intro k
        rw [checkAndInsert_get, ih1 k, List.mem_append, List.mem_singleton]
    · have hv' : isValidLink u siteName = false := by simpa using hv
      simp only [hv', Bool.false_eq_true, if_false, List.filter_cons, List.filter_nil,
        List.append_nil]
      exact ⟨ih1, ih2, ih3⟩

/-- One run of the callback either writes the link and records it as new, or
writes nothing and leaves the visited set as it is. -/
theorem onHTML_step (siteName : GoString) (st : CrawlState) (u : GoString) :
    ((onHTML siteName st u).written = st.written ++ [u] ∧
        isValidLink u siteName = true ∧
        st.visitedLinks.get u = false ∧ (onHTML siteName st u).visitedLinks.get u = true) ∨
    ((onHTML siteName st u).written = st.written ∧
        (onHTML siteName st u).visitedLinks = st.visitedLinks) := by
  unfold onHTML
  by_cases hv : isValidLink u siteName = true
  · by_cases hg : st.visitedLinks.get u = true
    · right
      simp [hv, checkAndInsert_fst, hg]
    · left
      have hg' : st.visitedLinks.get u = false := by simpa using hg
      have h2 : (checkAndInsert st.visitedLinks u).2.get u = true :=
        (checkAndInsert_get _ _ _).2 (Or.inr rfl)
      simp [hv, checkAndInsert_fst, hg', h2]
  · right
    simp [hv]

/-- Claim C2: starting from an empty visited set, the lines written for a
sequence of links delivered to the callback are the links accepted by
`isValidLink`, each once, in the order of their first occurrence: the output
has no duplicates, a URL is in it exactly when it is an accepted link of the
sequence, and at every further link either the link is written and is newly
inserted into the visited set, or nothing is written and the visited set is
unchanged. -/
theorem written_first_occurrences (siteName : GoString) (links : List GoString)
    (u : GoString) :
    (runCallbacks siteName CrawlState.init links).written
      = firstOccurrences (links.filter (fun l => isValidLink l siteName)) ∧
    (runCallbacks siteName CrawlState.init links).written.Nodup ∧
    (u ∈ (runCallbacks siteName CrawlState.init links).written ↔
      (u ∈ links ∧ isValidLink u siteName = true)) ∧
    (((runCallbacks siteName CrawlState.init (links ++ [u])).written
          = (runCallbacks siteName CrawlState.init links).written ++ [u] ∧
        isValidLink u siteName = true ∧
        (runCallbacks siteName CrawlState.init links).visitedLinks.get u = false ∧
        (runCallbacks siteName CrawlState.init (links ++ [u])).visitedLinks.get u = true) ∨
      ((runCallbacks siteName CrawlState.init (links ++ [u])).written
          = (runCallbacks siteName CrawlState.init links).written ∧
        (runCallbacks siteName CrawlState.init (links ++ [u])).visitedLinks
          = (runCallbacks siteName CrawlState.init links).visitedLinks)) := by
  obtain ⟨_, h2, _⟩ := runCallbacks_invariant siteName links
  refine ⟨h2, ?_, ?_, ?_⟩
  · rw [h2]
    exact firstOccurrences_nodup _
  · rw [h2, mem_firstOccurrences, List.mem_filter]
  · rw [runCallbacks_append_singleton]
    exact onHTML_step siteName _ u

/-- Witness of C2: the links `http://example.com/a` (twice) and
`http://example.com/img.png` with the site name `example` give the one output
line `http://example.com/a`. -/
theorem written_first_occurrences_witness :
    (runCallbacks "example".toList CrawlState.init
      ["http://example.com/a".toList, "http://example.com/a".toList,
        "http://example.com/img.png".toList]).written = ["http://example.com/a".toList] :=
  (written_first_occurrences "example".toList
    ["http://example.com/a".toList, "http://example.com/a".toList,
      "http://example.com/img.png".toList] []).1.trans (by decide)

/-- Claim C4, as amended: the callback calls `c.Visit` on a discovered link
exactly when the link passes `isValidLink`, whether or not it is already in
the visited set: the URLs passed to `c.Visit` are the accepted links of the
sequence, in order and with their repetitions; the lines written are their
first occurrences, so that the two sequences are equal exactly when no
accepted link is discovered twice; a link rejected by the classifier is never
passed to `c.Visit`. -/
theorem visitCalls_accepted_links (siteName : GoString) (links : List GoString)
    (u : GoString) :
    (runCallbacks siteName CrawlState.init links).visitCalls
      = links.filter (fun l => isValidLink l siteName) ∧
    (runCallbacks siteName CrawlState.init links).written
      = firstOccurrences (runCallbacks siteName CrawlState.init links).visitCalls ∧
    ((runCallbacks siteName CrawlState.init links).visitCalls
        = (runCallbacks siteName CrawlState.init links).written ↔
      (links.filter (fun l => isValidLink l siteName)).Nodup) ∧
    (isValidLink u siteName = false →
      u ∉ (runCallbacks siteName CrawlState.init links).visitCalls) := by
  obtain ⟨_, h2, h3⟩ := runCallbacks_invariant siteName links
  refine ⟨h3, by rw [h2, h3], ?_, ?_⟩
  · rw [h2, h3, eq_comm, firstOccurrences_eq_self_iff]
  · intro hu hmem
    rw [h3, List.mem_filter] at hmem
    rw [hu] at hmem
    simp at hmem

/-- Witness of C4 as amended: `http://example.com/img.png` is rejected and is
not passed to `c.Visit`. -/
theorem visitCalls_accepted_links_witness :
    "http://example.com/img.png".toList ∉
      (runCallbacks "example".toList CrawlState.init
        ["http://example.com/a".toList, "http://example.com/a".toList,
          "http://example.com/img.png".toList]).visitCalls :=
  (visitCalls_accepted_links "example".toList
    ["http://example.com/a".toList, "http://example.com/a".toList,
      "http://example.com/img.png".toList] "http://example.com/img.png".toList).2.2.2
    (by decide)

/-- Counterexample to C4 as stated: when `http://example.com/a` is discovered
twice, it is passed to `c.Visit` twice and written once. -/
theorem visitCalls_repeat_counterexample :
    (runCallbacks "example".toList CrawlState.init
        ["http://example.com/a".toList, "http://example.com/a".toList]).visitCalls
      = ["http://example.com/a".toList, "http://example.com/a".toList] ∧
    (runCallbacks "example".toList CrawlState.init
        ["http://example.com/a".toList, "http://example.com/a".toList]).written
      = ["http://example.com/a".toList] ∧
    ¬ (∀ (siteName : GoString) (links : List GoString),
        (runCallbacks siteName CrawlState.init links).visitCalls
          = (runCallbacks siteName CrawlState.init links).written) := by
  refine ⟨by decide, by decide, ?_⟩
  intro h
  have := h "example".toList ["http://example.com/a".toList, "http://example.com/a".toList]
  revert this
  decide

/-! ## The seed list -/

theorem TrimSpace_eq_rdropWhile (l : GoString) :
    TrimSpace l = (l.dropWhile IsSpace).rdropWhile IsSpace := rfl

/-- What `TrimSpace` removes and what it leaves: white space before and after,
around a string that neither begins nor ends with white space. -/
theorem TrimSpace_spec (l : GoString) :
    ∃ pre post, l = pre ++ TrimSpace l ++ post ∧
      (∀ c ∈ pre, IsSpace c = true) ∧ (∀ c ∈ post, IsSpace c = true) ∧
      (∀ c, (TrimSpace l).head? = some c → IsSpace c = false) ∧
      (∀ c, (TrimSpace l).getLast? = some c → IsSpace c = false) := by
  refine ⟨l.takeWhile IsSpace, ((l.dropWhile IsSpace).reverse.takeWhile IsSpace).reverse,
    ?_, ?_, ?_, ?_, ?_⟩
  · have h1 := List.takeWhile_append_dropWhile IsSpace (l.dropWhile IsSpace).reverse
    have h2 := congrArg List.reverse h1
    rw [List.reverse_append, List.reverse_reverse] at h2
    unfold TrimSpace
    rw [List.append_assoc, h2, List.takeWhile_append_dropWhile]
  · intro c hc
    exact List.mem_takeWhile_imp hc
  · intro c hc
    rw [List.mem_reverse] at hc
    exact List.mem_takeWhile_imp hc
  · intro c hc
    rw [TrimSpace_eq_rdropWhile] at hc
    obtain ⟨t, ht⟩ := List.rdropWhile_prefix IsSpace (l := l.dropWhile IsSpace)
    have hd := List.head?_dropWhile_not IsSpace l
    cases hr : List.rdropWhile IsSpace (l.dropWhile IsSpace) with
    | nil => rw [hr] at hc; simp at hc
    | cons a r =>
      rw [hr] at hc ht
      simp only [List.head?_cons, Option.some.injEq] at hc
      rw [← ht] at hd
      simp only [List.cons_append, List.head?_cons] at hd
      rw [← hc]
      exact hd
  · intro c hc
    rw [TrimSpace_eq_rdropWhile] at hc
    have hne : List.rdropWhile IsSpace (l.dropWhile IsSpace) ≠ [] := by
      intro h
      rw [h] at hc
      simp at hc
    have hlast := List.rdropWhile_last_not IsSpace (l.dropWhile IsSpace) hne
    rw [List.getLast?_eq_getLast _ hne, Option.some.injEq] at hc
    rw [hc] at hlast
    simpa using hlast

theorem TrimSpace_eq_nil_iff (l : GoString) :
    TrimSpace l = [] ↔ ∀ c ∈ l, IsSpace c = true := by
  constructor
  · intro h
    obtain ⟨pre, post, hl, hpre, hpost, _⟩ := TrimSpace_spec l
    rw [h, List.append_nil] at hl
    intro c hc
    rw [hl, List.mem_append] at hc
    exact hc.elim (hpre c) (hpost c)
  · intro h
    have : l.dropWhile IsSpace = [] := List.dropWhile_eq_nil_iff.2 h
    rw [TrimSpace_eq_rdropWhile, this]
    rfl

theorem foldl_readLinksStep (lines links : List GoString) :
    lines.foldl readLinksStep links
      = links ++ (lines.map TrimSpace).filter (fun line => line ≠ []) := by
  induction lines generalizing links with
  | nil => simp
  | cons text rest ih =>
    rw [List.foldl_cons, ih]
    unfold readLinksStep
    by_cases h : TrimSpace text = []
    · simp [h]
    · simp [h]

/-- Claim C9: when the seed file is opened and scanned without error,
`readLinksFromFile` returns the trimmed lines that are not empty after
trimming, in the order of the lines; no returned seed is empty; a line is
skipped exactly when it consists of white space only; and a trimmed line
is the line without the white space before and after it. -/
theorem readLinksFromFile_trimmed_lines (lines : List GoString) (text : GoString) :
    readLinksFromFile (.opened lines none)
      = .ok ((lines.map TrimSpace).filter (fun line => line ≠ [])) ∧
    [] ∉ (lines.map TrimSpace).filter (fun line => line ≠ []) ∧
    (TrimSpace text = [] ↔ ∀ c ∈ text, IsSpace c = true) ∧
    (∃ pre post, text = pre ++ TrimSpace text ++ post ∧
      (∀ c ∈ pre, IsSpace c = true) ∧ (∀ c ∈ post, IsSpace c = true) ∧
      (∀ c, (TrimSpace text).head? = some c → IsSpace c = false) ∧
      (∀ c, (TrimSpace text).getLast? = some c → IsSpace c = false)) := by
  refine ⟨?_, ?_, TrimSpace_eq_nil_iff text, TrimSpace_spec text⟩
  · unfold readLinksFromFile
    simp only [foldl_readLinksStep, List.nil_append]
  · simp [List.mem_filter]

/-- Witness of C9: of four lines, one empty and one of white space only, the
two others are returned trimmed and in order. -/
theorem readLinksFromFile_trimmed_lines_witness :
    readLinksFromFile (.opened ["  http://example.com ".toList, [], " \t".toList,
        "http://example.org\r".toList] none)
      = .ok ["http://example.com".toList, "http://example.org".toList] :=
  (readLinksFromFile_trimmed_lines ["  http://example.com ".toList, [], " \t".toList,
    "http://example.org\r".toList] []).1.trans (congrArg Except.ok (by decide))

end Crawlee
